import Mathlib

/- Verification development for the dev-stats calendar subsystem.

   The Go source (pkg/config/categorization.go together with the calendar
   analyzer code, and the legacy pkg/calendar/analyzer.go) is shallowly
   embedded below:
   - strings are lists of characters (Go string, compared byte-wise; for
     the code points appearing here the character order coincides with
     Go's byte order);
   - timestamps are integer seconds since Go's zero time
     (0001-01-01 00:00:00 UTC); the absent-value sentinel of time.Time
     (IsZero) is the integer 0, and time.Duration values are integer
     seconds (int(d.Hours()) becomes truncating division by 3600);
   - Go maps are association lists; where the code sorts map keys before
     iterating, the embedding sorts the key list the same way, and where
     Go's sort.Slice is called, the embedding uses an insertion sort with
     the same comparator (the comparators below are total, so the sorted
     permutation is the unique one the Go sort produces). -/

abbrev Str := List Char

def str (s : String) : Str := s.data

/-- ASCII case folding, modelling strings.ToLower on the rule/title data. -/
def lowerChar (c : Char) : Char :=
  if 'A' ≤ c ∧ c ≤ 'Z' then Char.ofNat (c.toNat + 32) else c

def toLowerStr (s : Str) : Str := s.map lowerChar

/-- White space recognised by strings.TrimSpace (ASCII part of unicode.IsSpace). -/
def isSpaceChar (c : Char) : Bool :=
  c == ' ' || c == '\t' || c == '\n' || c == '\r' || c == '\x0b' || c == '\x0c'

/-- strings.TrimSpace. -/
def trimSpace (s : Str) : Str :=
  ((s.dropWhile isSpaceChar).reverse.dropWhile isSpaceChar).reverse

/-- strings.HasPrefix s p. -/
def startsWithStr : Str → Str → Bool
  | _, [] => true
  | [], _ :: _ => false
  | c :: s, d :: t => c == d && startsWithStr s t

/-- strings.Contains s sub. -/
def containsStr : Str → Str → Bool
  | [], sub => startsWithStr [] sub
  | c :: s, sub => startsWithStr (c :: s) sub || containsStr s sub

/-- strings.TrimPrefix s p: drop p when it heads s, else return s unchanged. -/
def trimPrefStr (s p : Str) : Str :=
  if startsWithStr s p then s.drop p.length else s

/-- Byte-wise strict order on Go strings (the order behind sort.Strings). -/
def strLtb : Str → Str → Bool
  | [], [] => false
  | [], _ :: _ => true
  | _ :: _, [] => false
  | a :: s, b :: t => if a < b then true else if b < a then false else strLtb s t

/-- The reflexive order used to sort key lists: a comes no later than b. -/
def strLe (a b : Str) : Prop := strLtb b a = false

instance : DecidableRel strLe := fun a b =>
  inferInstanceAs (Decidable (strLtb b a = false))

theorem strLtb_antisymm : ∀ a b : Str, strLtb a b = false → strLtb b a = false → a = b
  | [], [], _, _ => rfl
  | [], _ :: _, h1, _ => by simp [strLtb] at h1
  | _ :: _, [], _, h2 => by simp [strLtb] at h2
  | a :: s, b :: t, h1, h2 => by
    simp only [strLtb] at h1 h2
    by_cases hab : a < b
    · simp [hab] at h1
    · by_cases hba : b < a
      · simp [hba] at h2
      · have hE : a = b := le_antisymm (not_lt.mp hba) (not_lt.mp hab)
        subst hE
        simp [hab] at h1 h2
        rw [strLtb_antisymm s t h1 h2]

theorem strLtb_asymm : ∀ a b : Str, strLtb a b = true → strLtb b a = false
  | [], [], h => by simp [strLtb] at h
  | [], _ :: _, _ => by simp [strLtb]
  | _ :: _, [], h => by simp [strLtb] at h
  | a :: s, b :: t, h => by
    simp only [strLtb] at h ⊢
    by_cases hab : a < b
    · have hba : ¬ b < a := lt_asymm hab
      simp [hab, hba]
    · by_cases hba : b < a
      · simp [hab, hba] at h
      · simp only [hab, hba, if_false] at h ⊢
        exact strLtb_asymm s t h

theorem strLtb_neg_trans : ∀ a b c : Str,
    strLtb b a = false → strLtb c b = false → strLtb c a = false := by
  intro a
  induction a with
  | nil =>
    intro b c _ _
    cases c with
    | nil => rfl
    | cons hc tc => rfl
  | cons ha ta ih =>
    intro b c h1 h2
    cases b with
    | nil => simp [strLtb] at h1
    | cons hb tb =>
      cases c with
      | nil => simp [strLtb] at h2
      | cons hc tc =>
        simp only [strLtb] at h1 h2 ⊢
        by_cases h3 : hb < ha
        · simp [h3] at h1
        · by_cases h4 : hc < hb
          · simp [h4] at h2
          · have hab : ha ≤ hb := not_lt.mp h3
            have hbc : hb ≤ hc := not_lt.mp h4
            have hac : ha ≤ hc := le_trans hab hbc
            have h5 : ¬ hc < ha := not_lt.mpr hac
            by_cases h6 : ha < hc
            · simp [h5, h6]
            · have hEac : ha = hc := le_antisymm hac (not_lt.mp h6)
              have hEab : ha = hb := le_antisymm hab (le_trans hbc (not_lt.mp h6))
              subst hEac
              subst hEab
              simp only [lt_irrefl, if_false] at h1 h2 ⊢
              exact ih tb tc h1 h2

instance : IsTotal Str strLe := by
  constructor
  intro a b
  by_cases h : strLtb b a = true
  · right; exact strLtb_asymm b a h
  · left; exact eq_false_of_ne_true h

instance : IsTrans Str strLe :=
  ⟨fun a b c h1 h2 => strLtb_neg_trans a b c h1 h2⟩

instance : IsAntisymm Str strLe :=
  ⟨fun a b h1 h2 => strLtb_antisymm a b h2 h1⟩

/-- sort.Strings: sort a list of strings in increasing byte order. -/
def sortStrings (l : List Str) : List Str := List.insertionSort strLe l

/- ---------------------------------------------------------------------
   Datetime decoder (parseDateTime / extractDateTime in analyzer.go).
   time.Parse on the three fixed numeric layouts is modelled exactly:
   fixed-width digit fields, calendar range validation, and conversion to
   seconds since the zero time via proleptic Gregorian day counting.
   --------------------------------------------------------------------- -/

def digitVal (c : Char) : Option Nat :=
  if c.isDigit then some (c.toNat - 48) else none

def readDigits (cs : Str) : Option Nat :=
  cs.foldl
    (fun acc c =>
      match acc, digitVal c with
      | some n, some d => some (n * 10 + d)
      | _, _ => none)
    (some 0)

/-- The numeric field of width len starting at offset off. -/
def numField (cs : Str) (off len : Nat) : Option Nat :=
  readDigits ((cs.drop off).take len)

def isLeapYear (y : Int) : Bool :=
  (y % 4 == 0 && y % 100 != 0) || y % 400 == 0

def daysInMonth (y m : Int) : Int :=
  if m == 2 then (if isLeapYear y then 29 else 28)
  else if m == 4 || m == 6 || m == 9 || m == 11 then 30
  else 31

/-- Days from 0001-01-01 to the given civil date (proleptic Gregorian). -/
def daysFromCivil (y m d : Int) : Int :=
  let y' := if m ≤ 2 then y - 1 else y
  let era := Int.fdiv y' 400
  let yoe := y' - era * 400
  let mp := (m + 9) % 12
  let doy := Int.fdiv (153 * mp + 2) 5 + d - 1
  let doe := yoe * 365 + Int.fdiv yoe 4 - Int.fdiv yoe 100 + doy
  era * 146097 + doe - 306

/-- Range checks of time.Parse followed by conversion to absolute seconds. -/
def mkDateTime (y mo d h mi s : Int) : Option Int :=
  if 1 ≤ mo ∧ mo ≤ 12 ∧ 1 ≤ d ∧ d ≤ daysInMonth y mo ∧
     0 ≤ h ∧ h ≤ 23 ∧ 0 ≤ mi ∧ mi ≤ 59 ∧ 0 ≤ s ∧ s ≤ 59 then
    some (daysFromCivil y mo d * 86400 + h * 3600 + mi * 60 + s)
  else none

/-- The six numeric fields of YYYYMMDDTHHMMSS (caller checks length and T). -/
def parseFullStamp (cs : Str) : Option Int :=
  match numField cs 0 4, numField cs 4 2, numField cs 6 2,
        numField cs 9 2, numField cs 11 2, numField cs 13 2 with
  | some y, some mo, some d, some h, some mi, some s =>
    mkDateTime (Int.ofNat y) (Int.ofNat mo) (Int.ofNat d)
      (Int.ofNat h) (Int.ofNat mi) (Int.ofNat s)
  | _, _, _, _, _, _ => none

/-- The three numeric fields of YYYYMMDD. -/
def parseDateOnly (cs : Str) : Option Int :=
  match numField cs 0 4, numField cs 4 2, numField cs 6 2 with
  | some y, some mo, some d =>
    mkDateTime (Int.ofNat y) (Int.ofNat mo) (Int.ofNat d) 0 0 0
  | _, _, _ => none

/-- parseDateTime: dispatch on token shape exactly as the Go code does,
    then apply time.Parse with the matching fixed layout. A none result is
    the Go (time.Time zero, error) pair. -/
def parseDateTime (dtStr : Str) : Option Int :=
  if dtStr.length == 0 then none
  else if 15 ≤ dtStr.length ∧ dtStr.getLast? = some 'Z' then
    (if dtStr.length == 16 ∧ dtStr.get? 8 = some 'T' then parseFullStamp dtStr
     else none)
  else if 15 ≤ dtStr.length ∧ 'T' ∈ dtStr then
    (if dtStr.length == 15 ∧ dtStr.get? 8 = some 'T' then parseFullStamp dtStr
     else none)
  else if dtStr.length == 8 then parseDateOnly dtStr
  else none

/-- extractDateTime: the text after the last colon of the line, or the
    empty string when the line has no colon. -/
def extractDateTime (line : Str) : Str :=
  if ':' ∈ line then (line.reverse.takeWhile (fun c => !(c == ':'))).reverse
  else []

example : daysFromCivil 1 1 1 = 0 := by decide
example : daysFromCivil 1970 1 1 = 719162 := by decide
example : daysFromCivil 2024 3 1 - daysFromCivil 2024 2 28 = 2 := by decide
example : parseDateTime (str "20240102T090000Z") =
    some (738885 * 86400 + 86400 + 9 * 3600) := by decide
example : parseDateTime (str "20240103") = some ((738885 + 2) * 86400) := by decide
example : parseDateTime (str "") = none := by decide
example : parseDateTime (str "20241302T090000Z") = none := by decide
example : parseDateTime (str "banana") = none := by decide
example : extractDateTime (str "DTSTART;VALUE=DATE:20240103") = str "20240103" := by
  decide
example : extractDateTime (str "no colon here") = str "" := by decide

/- ---------------------------------------------------------------------
   Event record and the ICS block parser state machine (parseICSFile).
   --------------------------------------------------------------------- -/

/-- The Event struct of the calendar analyzer. Timestamps are seconds since
    the zero time, with 0 the absent sentinel (time.Time.IsZero). -/
structure Event where
  UID : Str
  Summary : Str
  Start : Int
  End : Int
  Created : Int
  IsAllDay : Bool
deriving DecidableEq

/-- The Go zero value Event spawned at each BEGIN:VEVENT. -/
def emptyEvent : Event := ⟨[], [], 0, 0, 0, false⟩

/-- The mutable locals of parseICSFile: accumulated events, in-progress
    event, and the in-event flag. -/
structure ParseState where
  events : List Event
  currentEvent : Event
  inEvent : Bool
deriving DecidableEq

/-- The property dispatch of the in-event branch of parseICSFile; line is
    already trimmed. -/
def applyProp (e : Event) (line : Str) : Event :=
  if startsWithStr line (str "UID:") then
    { e with UID := trimPrefStr line (str "UID:") }
  else if startsWithStr line (str "SUMMARY:") then
    { e with Summary := trimPrefStr line (str "SUMMARY:") }
  else if startsWithStr line (str "DTSTART") then
    let dtStart := extractDateTime line
    let e1 := if containsStr line (str "VALUE=DATE") then
        { e with IsAllDay := true }
      else e
    match parseDateTime dtStart with
    | some t => { e1 with Start := t }
    | none => e1
  else if startsWithStr line (str "DTEND") then
    let dtEnd := extractDateTime line
    match parseDateTime dtEnd with
    | some t => { e with End := t }
    | none => e
  else if startsWithStr line (str "CREATED:") then
    let created := trimPrefStr line (str "CREATED:")
    match parseDateTime created with
    | some t => { e with Created := t }
    | none => e
  else e

/-- One iteration of the scanner loop of parseICSFile. -/
def processLine (st : ParseState) (raw : Str) : ParseState :=
  let line := trimSpace raw
  if line = str "BEGIN:VEVENT" then
    { st with inEvent := true, currentEvent := emptyEvent }
  else if line = str "END:VEVENT" then
    { st with
      events := if st.inEvent then st.events ++ [st.currentEvent] else st.events,
      inEvent := false }
  else if st.inEvent then
    { st with currentEvent := applyProp st.currentEvent line }
  else st

/-- parseICSFile on the file's lines (I/O and scanning stripped away). -/
def parseICSLines (lines : List Str) : List Event :=
  (lines.foldl processLine ⟨[], emptyEvent, false⟩).events

example :
    parseICSLines
      [str "BEGIN:VCALENDAR",
       str "BEGIN:VEVENT",
       str "UID:1",
       str "SUMMARY:Daily Standup",
       str "DTSTART:20240102T090000Z",
       str "DTEND:20240102T100000Z",
       str "END:VEVENT",
       str "END:VCALENDAR"] =
    [⟨str "1", str "Daily Standup",
      738885 * 86400 + 86400 + 9 * 3600,
      738885 * 86400 + 86400 + 10 * 3600, 0, false⟩] := by decide

example :
    parseICSLines
      [str "BEGIN:VEVENT",
       str "DTSTART;VALUE=DATE:20240103",
       str "END:VEVENT",
       str "BEGIN:VEVENT",
       str "SUMMARY:lost"] =
    [⟨str "", str "", (738885 + 2) * 86400, 0, 0, true⟩] := by decide

/- ---------------------------------------------------------------------
   Range filter, all-day classifier, duration and title statistics.
   --------------------------------------------------------------------- -/

/-- filterEventsByDateRange of the config-based analyzer: keep events with
    a present start that is not before startDate and before endDate plus
    one day (AddDate(0,0,1) is one day of 86400 seconds here). -/
def filterEventsByDateRange (events : List Event) (startDate endDate : Int) : List Event :=
  events.filter fun e =>
    !(e.Start == 0) && !(decide (e.Start < startDate)) &&
      decide (e.Start < endDate + 86400)

/-- filterEventsByDateRange of the legacy pkg/calendar analyzer: the lower
    bound there is Start.After(startDate), strictly. -/
def filterEventsByDateRangeLegacy (events : List Event) (startDate endDate : Int) : List Event :=
  events.filter fun e =>
    !(e.Start == 0) && decide (startDate < e.Start) &&
      decide (e.Start < endDate + 86400)

/-- isAllDayEvent: the explicit flag, or both endpoints present and either
    the span is exactly 24h or int(duration.Hours()) is a multiple of 24
    that is at least 24 (int(x) truncates toward zero, hence Int.tdiv). -/
def isAllDayEvent (e : Event) : Bool :=
  if e.IsAllDay then true
  else if !(e.Start == 0) && !(e.End == 0) then
    let duration := e.End - e.Start
    if duration == 86400 then true
    else
      let hours := Int.tdiv duration 3600
      decide (24 ≤ hours) && decide (hours % 24 = 0)
  else false

/-- calculateDuration: total of positive spans of timed events with both
    endpoints present. -/
def calculateDuration (events : List Event) : Int :=
  events.foldl
    (fun totalDuration e =>
      if !(isAllDayEvent e) && !(e.Start == 0) && !(e.End == 0) then
        let duration := e.End - e.Start
        if 0 < duration then totalDuration + duration else totalDuration
      else totalDuration)
    0

/-- Go map lookup on an association list (first binding wins; absent keys
    give the zero value passed as d). -/
def lookupD {α : Type} (l : List (Str × α)) (k : Str) (d : α) : α :=
  match l.find? (fun p => p.1 == k) with
  | some p => p.2
  | none => d

/-- The TitleStats record. -/
structure TitleStats where
  Title : Str
  Count : Nat
  Duration : Int
deriving DecidableEq

/-- The inner duration loop of calculateTitleStats over one title group. -/
def titleTimedDuration (events : List Event) : Int :=
  events.foldl
    (fun duration e =>
      if !(isAllDayEvent e) && !(e.Start == 0) && !(e.End == 0) then
        let d := e.End - e.Start
        if 0 < d then duration + d else duration
      else duration)
    0

/-- calculateTitleStats (config-based analyzer): iterate titles in sorted
    order and emit count and accumulated timed duration per group. -/
def calculateTitleStats (grouped : List (Str × List Event)) : List TitleStats :=
  (sortStrings (grouped.map Prod.fst)).map fun title =>
    let events := lookupD grouped title []
    ⟨title, events.length, titleTimedDuration events⟩

/-- The all-day member count of one title group. -/
def allDayCount (events : List Event) : Nat :=
  events.countP fun e => isAllDayEvent e

/-- The totalDays loop of calculateAllDayStats: per all-day member, add
    int(duration.Hours()/24) days when that is positive, else one day
    (also one day when an endpoint is absent). -/
def allDayTotalDays (events : List Event) : Int :=
  events.foldl
    (fun totalDays e =>
      if isAllDayEvent e then
        if !(e.Start == 0) && !(e.End == 0) then
          let days := Int.tdiv (e.End - e.Start) 86400
          if 0 < days then totalDays + days else totalDays + 1
        else totalDays + 1
      else totalDays)
    0

/-- calculateAllDayStats: a sorted-title table of groups that have at
    least one all-day member; Duration is totalDays*24 hours. -/
def calculateAllDayStats (grouped : List (Str × List Event)) : List TitleStats :=
  (sortStrings (grouped.map Prod.fst)).filterMap fun title =>
    let events := lookupD grouped title []
    if 0 < allDayCount events then
      some ⟨title, allDayCount events, allDayTotalDays events * 86400⟩
    else none

/-- The map-update step of groupEventsByTitle, keyed in insertion order. -/
def addToGroup : List (Str × List Event) → Str → Event → List (Str × List Event)
  | [], title, e => [(title, [e])]
  | (k, evs) :: rest, title, e =>
    if k = title then (k, evs ++ [e]) :: rest
    else (k, evs) :: addToGroup rest title e

/-- groupEventsByTitle: group by trimmed title, dropping empty titles. -/
def groupEventsByTitle (events : List Event) : List (Str × List Event) :=
  events.foldl
    (fun grouped e =>
      let title := trimSpace e.Summary
      if title = [] then grouped else addToGroup grouped title e)
    []

/- ---------------------------------------------------------------------
   Categorization configuration and engine (pkg/config/categorization.go).
   --------------------------------------------------------------------- -/

structure CategoryDefinition where
  Name : Str
  Keywords : List Str

structure EventRule where
  Keywords : List Str
  Category : Str

structure NotionRule where
  Keywords : List Str

structure CategorizationConfig where
  Categories : List (Str × CategoryDefinition)
  EventCategories : List (Str × EventRule)
  NotionCategories : List (Str × NotionRule)

/-- The inner keyword loop: some keyword, lowercased, occurs in the title. -/
def keywordHit (title : Str) (kws : List Str) : Bool :=
  kws.any fun keyword => containsStr title (toLowerStr keyword)

/-- CategorizeByKeywords: lowercase the title, scan event rules by sorted
    name and return the first whose keywords hit, then likewise for the
    general categories, else the literal other. -/
def CategorizeByKeywords (config : CategorizationConfig) (title : Str) : Str :=
  let t := toLowerStr title
  let eventTypes := sortStrings (config.EventCategories.map Prod.fst)
  match eventTypes.find? (fun eventType =>
      keywordHit t (lookupD config.EventCategories eventType ⟨[], []⟩).Keywords) with
  | some eventType => eventType
  | none =>
    let categoryNames := sortStrings (config.Categories.map Prod.fst)
    match categoryNames.find? (fun categoryName =>
        keywordHit t (lookupD config.Categories categoryName ⟨[], []⟩).Keywords) with
    | some categoryName => categoryName
    | none => str "other"

/-- GetCategoryTime: the same sorted scan over the general categories only. -/
def GetCategoryTime (config : CategorizationConfig) (title : Str) : Str :=
  let t := toLowerStr title
  let categoryNames := sortStrings (config.Categories.map Prod.fst)
  match categoryNames.find? (fun categoryName =>
      keywordHit t (lookupD config.Categories categoryName ⟨[], []⟩).Keywords) with
  | some categoryName => categoryName
  | none => str "other"

/-- categorizeEvent: CategorizeByKeywords followed by the display-name
    switch of the calendar analyzer. -/
def categorizeEvent (config : CategorizationConfig) (title : Str) : Str :=
  let category := CategorizeByKeywords config title
  if category = str "1on1 meetings" then str "1on1 Meetings"
  else if category = str "daily standups" then str "Daily Standups"
  else if category = str "regular meetings" then str "Regular Meetings"
  else if category = str "general meetings" then str "General Meetings"
  else if category = str "focus work" then str "Focus Work"
  else if category = str "technical consultation" then str "Technical Consultation"
  else if category = str "learning & training" then str "Learning & Training"
  else if category = str "time off" then str "Time Off"
  else if category = str "meeting" then str "General Meetings"
  else if category = str "focus" then str "Focus Work"
  else if category = str "learning" then str "Learning & Training"
  else if category = str "admin" then str "Admin Work"
  else str "Other"

/- ---------------------------------------------------------------------
   Category statistics and working-hours analysis.
   --------------------------------------------------------------------- -/

structure CategoryInfo where
  Count : Nat
  Duration : Int
  Events : List Event
deriving DecidableEq

structure EventCategoryStats where
  Categories : List (Str × CategoryInfo)
  MeetingTime : Int
  FocusTime : Int
  LearningTime : Int
  AdminTime : Int
deriving DecidableEq

/-- The per-category map update of analyzeCategoryStats (Go map modelled
    in insertion order). -/
def bumpCategory : List (Str × CategoryInfo) → Str → Int → Event → List (Str × CategoryInfo)
  | [], category, duration, e => [(category, ⟨1, duration, [e]⟩)]
  | (k, info) :: rest, category, duration, e =>
    if k = category then
      (k, ⟨info.Count + 1, info.Duration + duration, info.Events ++ [e]⟩) :: rest
    else (k, info) :: bumpCategory rest category duration e

/-- analyzeCategoryStats: events with the explicit all-day flag are
    skipped; every other event contributes its raw span to its category
    and, via GetCategoryTime, to one of the four time buckets. -/
def analyzeCategoryStats (config : CategorizationConfig) (events : List Event) : EventCategoryStats :=
  events.foldl
    (fun stats e =>
      if e.IsAllDay then stats
      else
        let duration := e.End - e.Start
        let title := toLowerStr e.Summary
        let category := categorizeEvent config title
        let stats1 := { stats with
          Categories := bumpCategory stats.Categories category duration e }
        let categoryType := GetCategoryTime config title
        if categoryType = str "meeting" then
          { stats1 with MeetingTime := stats1.MeetingTime + duration }
        else if categoryType = str "focus" then
          { stats1 with FocusTime := stats1.FocusTime + duration }
        else if categoryType = str "learning" then
          { stats1 with LearningTime := stats1.LearningTime + duration }
        else if categoryType = str "admin" then
          { stats1 with AdminTime := stats1.AdminTime + duration }
        else stats1)
    ⟨[], 0, 0, 0, 0⟩

/-- Hour of day of a timestamp (UTC), as time.Time.Hour computes it. -/
def goHour (t : Int) : Int := Int.tdiv (t % 86400) 3600

/-- Weekday index of a timestamp, Sunday = 0; the zero time is a Monday. -/
def goWeekday (t : Int) : Int := (Int.fdiv t 86400 + 1) % 7

/-- time.Weekday.String. -/
def weekdayName (w : Int) : Str :=
  if w = 0 then str "Sunday"
  else if w = 1 then str "Monday"
  else if w = 2 then str "Tuesday"
  else if w = 3 then str "Wednesday"
  else if w = 4 then str "Thursday"
  else if w = 5 then str "Friday"
  else str "Saturday"

structure WorkingHoursStats where
  HourlyDistribution : List (Int × Int)
  DailyDistribution : List (Str × Int)
  PeakHours : List Int
  TotalWorkingHours : Int
deriving DecidableEq

/-- Go map += on a distribution, keys kept in insertion order. -/
def updateDist {κ : Type} [DecidableEq κ] : List (κ × Int) → κ → Int → List (κ × Int)
  | [], k, v => [(k, v)]
  | (k0, v0) :: rest, k, v =>
    if k0 = k then (k0, v0 + v) :: rest
    else (k0, v0) :: updateDist rest k v

/-- The accumulation loop of analyzeWorkingHours: events with the explicit
    all-day flag are skipped, the rest bucket their raw span by start hour
    and weekday and feed the running total. -/
def workingHoursBase (events : List Event) : WorkingHoursStats :=
  events.foldl
    (fun stats e =>
      if e.IsAllDay then stats
      else
        let duration := e.End - e.Start
        let hour := goHour e.Start
        let day := weekdayName (goWeekday e.Start)
        { stats with
          HourlyDistribution := updateDist stats.HourlyDistribution hour duration,
          DailyDistribution := updateDist stats.DailyDistribution day duration,
          TotalWorkingHours := stats.TotalWorkingHours + duration })
    ⟨[], [], [], 0⟩

/-- The sort.Slice comparator of the peak-hour selection, as the pairwise
    order its output satisfies: duration descending, hour ascending on
    ties. -/
def hourLe (a b : Int × Int) : Prop :=
  b.2 < a.2 ∨ (b.2 = a.2 ∧ a.1 ≤ b.1)

instance : DecidableRel hourLe := fun a b => by unfold hourLe; infer_instance

/-- analyzeWorkingHours: the accumulation pass followed by the sorted
    peak-hour selection (top three hours). -/
def analyzeWorkingHours (events : List Event) : WorkingHoursStats :=
  let base := workingHoursBase events
  let hourList := List.insertionSort hourLe base.HourlyDistribution
  { base with PeakHours := (hourList.take 3).map Prod.fst }

/- ---------------------------------------------------------------------
   The three ranking views of printResults (config-based analyzer), and
   the sortedness contract of the legacy analyzer's tie-break-free views.
   --------------------------------------------------------------------- -/

/-- Pairwise order of the by-count view: count descending, title
    ascending on ties. -/
def countLe (a b : TitleStats) : Prop :=
  b.Count < a.Count ∨ (b.Count = a.Count ∧ strLe a.Title b.Title)

/-- Pairwise order of the by-duration and by-days views: duration
    descending, title ascending on ties. -/
def durLe (a b : TitleStats) : Prop :=
  b.Duration < a.Duration ∨ (b.Duration = a.Duration ∧ strLe a.Title b.Title)

instance : DecidableRel countLe := fun a b => by unfold countLe; infer_instance

instance : DecidableRel durLe := fun a b => by unfold durLe; infer_instance

/-- The sortedByCount view of printResults. -/
def sortedByCount (titleStats : List TitleStats) : List TitleStats :=
  List.insertionSort countLe titleStats

/-- The sortedByDuration view of printResults. -/
def sortedByDuration (titleStats : List TitleStats) : List TitleStats :=
  List.insertionSort durLe titleStats

/-- The sortedByDays view of printResults (the comparator is the same
    duration-descending title-ascending order). -/
def sortedByDays (allDayStats : List TitleStats) : List TitleStats :=
  List.insertionSort durLe allDayStats

/-- What the legacy printResults guarantees for its by-count view: some
    permutation that is pairwise non-increasing in count; titles are not
    consulted. -/
def legacySortedByCountOk (input output : List TitleStats) : Prop :=
  output.Perm input ∧ output.Pairwise fun a b => ¬ a.Count < b.Count

/- ---------------------------------------------------------------------
   Helper lemmas.
   --------------------------------------------------------------------- -/

theorem strLtb_irrefl : ∀ a : Str, strLtb a a = false
  | [] => rfl
  | c :: s => by simp [strLtb, strLtb_irrefl s]

theorem strLe_refl (a : Str) : strLe a a := strLtb_irrefl a

/-- A fold that skips filtered-out elements is unchanged by the filter. -/
theorem foldl_skip {β α : Type} (step : β → α → β) (keep : α → Bool)
    (h : ∀ s a, keep a = false → step s a = s) :
    ∀ (l : List α) (s : β), (l.filter keep).foldl step s = l.foldl step s := by
  intro l
  induction l with
  | nil => intro s; rfl
  | cons a l ih =>
    intro s
    by_cases hk : keep a = true
    · simp only [List.filter_cons, hk, if_true, List.foldl_cons]
      exact ih (step s a)
    · have hk' : keep a = false := eq_false_of_ne_true hk
      simp only [List.filter_cons, hk', Bool.false_eq_true, if_false, List.foldl_cons,
        h s a hk']
      exact ih s

/-- find? on a sorted list returns a match that is minimal among all
    matches. -/
theorem find?_sorted_min {p : Str → Bool} : ∀ {l : List Str}, l.Sorted strLe →
    ∀ {a : Str}, l.find? p = some a →
      a ∈ l ∧ p a = true ∧ ∀ b ∈ l, p b = true → strLe a b := by
  intro l
  induction l with
  | nil => intro _ a h; simp [List.find?] at h
  | cons x xs ih =>
    intro hs a h
    rw [List.find?] at h
    cases hpx : p x with
    | true =>
      rw [hpx] at h
      have hax : x = a := by injection h
      subst hax
      refine ⟨List.mem_cons_self _ _, hpx, ?_⟩
      intro b hb _
      rcases List.mem_cons.mp hb with hbx | hbxs
      · subst hbx; exact strLe_refl _
      · exact List.rel_of_sorted_cons hs b hbxs
    | false =>
      rw [hpx] at h
      obtain ⟨hmem, hpa, hmin⟩ := ih hs.of_cons h
      refine ⟨List.mem_cons_of_mem _ hmem, hpa, ?_⟩
      intro b hb hpb
      rcases List.mem_cons.mp hb with hbx | hbxs
      · subst hbx; rw [hpx] at hpb; exact absurd hpb (by simp)
      · exact hmin b hbxs hpb

/-- Two bindings of an association list with unique keys and the same key
    are the same binding. -/
theorem assoc_mem_unique {α : Type} : ∀ {l : List (Str × α)},
    (l.map Prod.fst).Nodup → ∀ {p q : Str × α}, p ∈ l → q ∈ l → p.1 = q.1 → p = q := by
  intro l
  induction l with
  | nil => intro _ p q hp; simp at hp
  | cons x rest ih =>
    intro hnd p q hp hq hk
    rw [List.map_cons, List.nodup_cons] at hnd
    rcases List.mem_cons.mp hp with hpx | hpr
    · rcases List.mem_cons.mp hq with hqx | hqr
      · rw [hpx, hqx]
      · exfalso
        apply hnd.1
        have hq1 : q.1 = x.1 := by rw [← hk, hpx]
        exact List.mem_map.mpr ⟨q, hqr, hq1⟩
    · rcases List.mem_cons.mp hq with hqx | hqr
      · exfalso
        apply hnd.1
        have hp1 : p.1 = x.1 := by rw [hk, hqx]
        exact List.mem_map.mpr ⟨p, hpr, hp1⟩
      · exact ih hnd.2 hpr hqr hk

/-- Go map lookup is unchanged under permutation when keys are unique. -/
theorem lookupD_perm {α : Type} {l l' : List (Str × α)} (hperm : l.Perm l')
    (hnd : (l.map Prod.fst).Nodup) (k : Str) (d : α) :
    lookupD l k d = lookupD l' k d := by
  unfold lookupD
  cases h : l.find? (fun p => p.1 == k) with
  | none =>
    have hall := List.find?_eq_none.mp h
    have h' : l'.find? (fun p => p.1 == k) = none := by
      apply List.find?_eq_none.mpr
      intro x hx
      exact hall x (hperm.symm.subset hx)
    rw [h']
  | some pr =>
    have hpr : pr.1 = k := by simpa using List.find?_some h
    have hprm : pr ∈ l := List.mem_of_find?_eq_some h
    have hprm' : pr ∈ l' := hperm.subset hprm
    cases h' : l'.find? (fun p => p.1 == k) with
    | none =>
      have := List.find?_eq_none.mp h' pr hprm'
      simp [hpr] at this
    | some qr =>
      have hqr : qr.1 = k := by simpa using List.find?_some h'
      have hqrm : qr ∈ l := hperm.symm.subset (List.mem_of_find?_eq_some h')
      have hpq : pr = qr := by
        apply assoc_mem_unique hnd hprm hqrm
        rw [hpr, hqr]
      rw [hpq]

/-- Go map lookup of a present binding under unique keys. -/
theorem lookupD_of_mem {α : Type} {l : List (Str × α)}
    (hnd : (l.map Prod.fst).Nodup) {k : Str} {v : α} (hm : (k, v) ∈ l) (d : α) :
    lookupD l k d = v := by
  unfold lookupD
  cases h : l.find? (fun p => p.1 == k) with
  | none =>
    have := List.find?_eq_none.mp h (k, v) hm
    simp at this
  | some pr =>
    have hpr : pr.1 = k := by simpa using List.find?_some h
    have hprm : pr ∈ l := List.mem_of_find?_eq_some h
    have hpkv : pr = (k, v) := assoc_mem_unique hnd hprm hm (by simpa using hpr)
    rw [hpkv]

/-- The key list of a distribution update: unchanged when the key is
    present, extended by the key otherwise. -/
theorem updateDist_keys {κ : Type} [DecidableEq κ] :
    ∀ (l : List (κ × Int)) (k : κ) (v : Int),
      (updateDist l k v).map Prod.fst =
        if k ∈ l.map Prod.fst then l.map Prod.fst else l.map Prod.fst ++ [k] := by
  intro l
  induction l with
  | nil => intro k v; simp [updateDist]
  | cons x rest ih =>
    intro k v
    rcases x with ⟨k0, v0⟩
    by_cases hk : k0 = k
    · subst hk
      simp [updateDist]
    · simp only [updateDist, hk, if_false, List.map_cons]
      rw [ih k v]
      by_cases hmem : k ∈ rest.map Prod.fst
      · simp [hmem, hk, Ne.symm hk]
      · simp [hmem, hk, Ne.symm hk]

theorem updateDist_keys_nodup {κ : Type} [DecidableEq κ]
    (l : List (κ × Int)) (k : κ) (v : Int) (hnd : (l.map Prod.fst).Nodup) :
    ((updateDist l k v).map Prod.fst).Nodup := by
  rw [updateDist_keys]
  by_cases hmem : k ∈ l.map Prod.fst
  · simpa [hmem] using hnd
  · simp only [hmem, if_false]
    rw [List.nodup_append]
    refine ⟨hnd, List.nodup_singleton _, ?_⟩
    intro x hx hx'
    rw [List.mem_singleton] at hx'
    exact hmem (hx' ▸ hx)

/-- The hour keys accumulated by analyzeWorkingHours are unique. -/
theorem workingHoursBase_keys_nodup (events : List Event) :
    ((workingHoursBase events).HourlyDistribution.map Prod.fst).Nodup := by
  have main : ∀ (l : List Event) (st : WorkingHoursStats),
      (st.HourlyDistribution.map Prod.fst).Nodup →
      ((l.foldl (fun stats e =>
        if e.IsAllDay then stats
        else
          let duration := e.End - e.Start
          let hour := goHour e.Start
          let day := weekdayName (goWeekday e.Start)
          { stats with
            HourlyDistribution := updateDist stats.HourlyDistribution hour duration,
            DailyDistribution := updateDist stats.DailyDistribution day duration,
            TotalWorkingHours := stats.TotalWorkingHours + duration }) st).HourlyDistribution.map
          Prod.fst).Nodup := by
    intro l
    induction l with
    | nil => intro st h; exact h
    | cons e rest ih =>
      intro st h
      rw [List.foldl_cons]
      by_cases he : e.IsAllDay
      · simp only [he, if_true]
        exact ih st h
      · simp only [he, Bool.false_eq_true, if_false]
        exact ih _ (updateDist_keys_nodup _ _ _ h)
  exact main events ⟨[], [], [], 0⟩ (by simp)

instance : IsTotal (Int × Int) hourLe := by
  constructor
  intro a b
  unfold hourLe
  omega

instance : IsTrans (Int × Int) hourLe := by
  constructor
  intro a b c hab hbc
  unfold hourLe at *
  omega

instance : IsTotal TitleStats countLe := by
  constructor
  intro a b
  unfold countLe
  rcases Nat.lt_trichotomy a.Count b.Count with h | h | h
  · exact Or.inr (Or.inl h)
  · rcases total_of strLe a.Title b.Title with ht | ht
    · exact Or.inl (Or.inr ⟨h.symm, ht⟩)
    · exact Or.inr (Or.inr ⟨h, ht⟩)
  · exact Or.inl (Or.inl h)

instance : IsTrans TitleStats countLe := by
  constructor
  intro a b c hab hbc
  unfold countLe at *
  rcases hab with h1 | ⟨h1, h1'⟩
  · rcases hbc with h2 | ⟨h2, h2'⟩
    · exact Or.inl (Nat.lt_trans h2 h1)
    · exact Or.inl (h2 ▸ h1)
  · rcases hbc with h2 | ⟨h2, h2'⟩
    · exact Or.inl (h1 ▸ h2)
    · exact Or.inr ⟨h2.trans h1, strLtb_neg_trans _ _ _ h1' h2'⟩

instance : IsTotal TitleStats durLe := by
  constructor
  intro a b
  unfold durLe
  rcases lt_trichotomy a.Duration b.Duration with h | h | h
  · exact Or.inr (Or.inl h)
  · rcases total_of strLe a.Title b.Title with ht | ht
    · exact Or.inl (Or.inr ⟨h.symm, ht⟩)
    · exact Or.inr (Or.inr ⟨h, ht⟩)
  · exact Or.inl (Or.inl h)

instance : IsTrans TitleStats durLe := by
  constructor
  intro a b c hab hbc
  unfold durLe at *
  rcases hab with h1 | ⟨h1, h1'⟩
  · rcases hbc with h2 | ⟨h2, h2'⟩
    · exact Or.inl (lt_trans h2 h1)
    · exact Or.inl (h2 ▸ h1)
  · rcases hbc with h2 | ⟨h2, h2'⟩
    · exact Or.inl (h1 ▸ h2)
    · exact Or.inr ⟨h2.trans h1, strLtb_neg_trans _ _ _ h1' h2'⟩

/- ---------------------------------------------------------------------
   Claim theorems.
   --------------------------------------------------------------------- -/

/-- C2, counterexample: an event starting exactly at the start-date
    satisfies the claimed retention conditions (start present, not before
    start-date, before end-date plus one day) yet the legacy calendar
    analyzer's range filter drops it, because that filter requires
    Start.After(startDate), strictly. -/
theorem filterLegacy_startDate_cex :
    (⟨[], [], 86400, 90000, 0, false⟩ : Event).Start ≠ 0 ∧
    ¬ (⟨[], [], 86400, 90000, 0, false⟩ : Event).Start < 86400 ∧
    (⟨[], [], 86400, 90000, 0, false⟩ : Event).Start < 86400 + 86400 ∧
    filterEventsByDateRangeLegacy [⟨[], [], 86400, 90000, 0, false⟩] 86400 86400 = [] := by
  decide

/-- C2, amended: the config-based range filter retains an event exactly
    when its start is present, not before the start-date and strictly
    before end-date plus one day; the legacy analyzer's filter instead
    requires the start to be strictly after the start-date (so an event
    starting exactly at start-date midnight is dropped there). -/
theorem filterEventsByDateRange_spec (events : List Event) (startDate endDate : Int)
    (e : Event) :
    (e ∈ filterEventsByDateRange events startDate endDate ↔
      e ∈ events ∧ e.Start ≠ 0 ∧ startDate ≤ e.Start ∧ e.Start < endDate + 86400) ∧
    (e ∈ filterEventsByDateRangeLegacy events startDate endDate ↔
      e ∈ events ∧ e.Start ≠ 0 ∧ startDate < e.Start ∧ e.Start < endDate + 86400) := by
  constructor
  · simp [filterEventsByDateRange, List.mem_filter, not_lt, and_assoc]
  · simp [filterEventsByDateRangeLegacy, List.mem_filter, and_assoc]

/-- C3, counterexample: an unmarked event spanning 24 hours and one
    minute is classified all-day by isAllDayEvent although its span is
    not a positive multiple of 24 hours, because int(duration.Hours())
    truncates 24h01m to 24. -/
theorem isAllDayEvent_24h01m_cex :
    isAllDayEvent ⟨[], [], 1000, 1000 + 86460, 0, false⟩ = true ∧
    (⟨[], [], 1000, 1000 + 86460, 0, false⟩ : Event).IsAllDay = false ∧
    ¬ ∃ k : Int, 0 < k ∧
      (⟨[], [], 1000, 1000 + 86460, 0, false⟩ : Event).End -
        (⟨[], [], 1000, 1000 + 86460, 0, false⟩ : Event).Start = k * 86400 := by
  refine ⟨by decide, rfl, ?_⟩
  rintro ⟨k, hk, he⟩
  have h2 : (1000 + 86460 : Int) - 1000 = k * 86400 := he
  omega

/-- C3, amended: isAllDayEvent returns true exactly when the event was
    marked all-day at parse time, or both endpoints are present and the
    span truncated to whole hours is at least 24 and a multiple of 24
    (so exactly 24h qualifies with no marker and 25h does not, but so
    does any span within an hour above a positive multiple of 24h). -/
theorem isAllDayEvent_characterization :
    (∀ e : Event, isAllDayEvent e = true ↔
      (e.IsAllDay = true ∨
        (e.Start ≠ 0 ∧ e.End ≠ 0 ∧ 24 ≤ Int.tdiv (e.End - e.Start) 3600 ∧
         Int.tdiv (e.End - e.Start) 3600 % 24 = 0))) ∧
    isAllDayEvent ⟨[], [], 1000, 1000 + 86400, 0, false⟩ = true ∧
    isAllDayEvent ⟨[], [], 1000, 1000 + 90000, 0, false⟩ = false := by
  refine ⟨fun e => ?_, by decide, by decide⟩
  unfold isAllDayEvent
  by_cases h1 : e.IsAllDay = true
  · simp [h1]
  · by_cases h2 : e.Start = 0
    · simp [h1, h2]
    · by_cases h3 : e.End = 0
      · simp [h1, h2, h3]
      · by_cases h4 : e.End - e.Start = 86400
        · have ht : Int.tdiv (e.End - e.Start) 3600 = 24 := by rw [h4]; decide
          simp [h1, h2, h3, h4, ht]
          decide
        · simp [h1, h2, h3, h4]

/-- C1, counterexample: an event whose 24-hour span makes the all-day
    classifier return true, but whose explicit flag is false, still feeds
    the working-hours histogram and running total, because
    analyzeWorkingHours skips only explicitly flagged events. -/
theorem allDay_inclusion_workingHours_cex :
    isAllDayEvent ⟨[], [], 1000, 1000 + 86400, 0, false⟩ = true ∧
    (analyzeWorkingHours [⟨[], [], 1000, 1000 + 86400, 0, false⟩]).TotalWorkingHours
      = 86400 ∧
    (analyzeWorkingHours [⟨[], [], 1000, 1000 + 86400, 0, false⟩]).HourlyDistribution
      = [(0, 86400)] := by
  decide

/-- C1, amended: the total-duration sum excludes every event the all-day
    classifier accepts, while analyzeCategoryStats and analyzeWorkingHours
    exclude exactly the events whose explicit parse-time flag is set: both
    are unchanged by dropping flagged events, so classifier-only all-day
    events (24h-multiple spans without marker) still feed them. -/
theorem allDay_exclusion_amended (config : CategorizationConfig) (events : List Event) :
    calculateDuration (events.filter fun e => !(isAllDayEvent e)) = calculateDuration events ∧
    analyzeCategoryStats config (events.filter fun e => !e.IsAllDay) =
      analyzeCategoryStats config events ∧
    analyzeWorkingHours (events.filter fun e => !e.IsAllDay) = analyzeWorkingHours events := by
  refine ⟨?_, ?_, ?_⟩
  · unfold calculateDuration
    apply foldl_skip
    intro s a hk
    have ha : isAllDayEvent a = true := by simpa using hk
    simp [ha]
  · unfold analyzeCategoryStats
    apply foldl_skip
    intro s a hk
    have ha : a.IsAllDay = true := by simpa using hk
    simp [ha]
  · have hbase : workingHoursBase (events.filter fun e => !e.IsAllDay) =
        workingHoursBase events := by
      unfold workingHoursBase
      apply foldl_skip
      intro s a hk
      have ha : a.IsAllDay = true := by simpa using hk
      simp [ha]
    unfold analyzeWorkingHours
    rw [hbase]

/-- C7, confirmed: the peak-hour list is the head (three entries, fewer
    when the histogram is smaller) of a permutation of the hour histogram
    sorted by duration descending with ties broken by hour ascending, so
    of two equal-duration hours the lower-numbered one ranks first. -/
theorem analyzeWorkingHours_peakHours (events : List Event) :
    ∃ l : List (Int × Int),
      (analyzeWorkingHours events).HourlyDistribution.Perm l ∧
      l.Pairwise (fun a b => b.2 ≤ a.2 ∧ (a.2 = b.2 → a.1 < b.1)) ∧
      (analyzeWorkingHours events).PeakHours = (l.take 3).map Prod.fst ∧
      (analyzeWorkingHours events).PeakHours.length =
        min 3 (analyzeWorkingHours events).HourlyDistribution.length := by
  refine ⟨List.insertionSort hourLe (workingHoursBase events).HourlyDistribution,
    ?_, ?_, rfl, ?_⟩
  · exact (List.perm_insertionSort hourLe _).symm
  · have hsorted :
        (List.insertionSort hourLe (workingHoursBase events).HourlyDistribution).Pairwise
          hourLe :=
      List.sorted_insertionSort hourLe _
    have hnd :
        ((List.insertionSort hourLe
            (workingHoursBase events).HourlyDistribution).map Prod.fst).Nodup :=
      ((List.perm_insertionSort hourLe _).map Prod.fst).nodup_iff.mpr
        (workingHoursBase_keys_nodup events)
    have hne :
        (List.insertionSort hourLe
            (workingHoursBase events).HourlyDistribution).Pairwise
          (fun a b : Int × Int => a.1 ≠ b.1) :=
      List.pairwise_map.mp hnd
    refine (hsorted.and hne).imp ?_
    intro a b hab
    obtain ⟨hle, hne'⟩ := hab
    unfold hourLe at hle
    constructor
    · omega
    · intro hEq
      omega
  · simp [analyzeWorkingHours, List.length_take, List.length_map,
      List.length_insertionSort]

/-- C8, counterexample: the legacy printResults by-count comparator looks
    only at counts, so a by-count output it fully permits can order two
    equal-count entries with the larger title first — the tie is not
    broken by title there. -/
theorem legacy_ranking_no_tiebreak_cex :
    legacySortedByCountOk [⟨str "b", 1, 0⟩, ⟨str "a", 1, 0⟩]
      [⟨str "b", 1, 0⟩, ⟨str "a", 1, 0⟩] ∧
    ¬ ([⟨str "b", 1, 0⟩, ⟨str "a", 1, 0⟩] : List TitleStats).Pairwise
        (fun s t => s.Count = t.Count → strLe s.Title t.Title) := by
  constructor
  · exact ⟨List.Perm.refl _, by decide⟩
  · decide

/-- C8, amended: the three ranking views of the config-based printResults
    are deterministic sorts — count descending, duration descending and
    all-day-days descending, each breaking ties by title ascending — while
    the legacy analyzer's views sort by the key alone. Each view below is
    a permutation of its input that is pairwise ordered with the title
    tie-break. -/
theorem printResults_ranking_views (titleStats allDayStats : List TitleStats) :
    (sortedByCount titleStats).Perm titleStats ∧
    (sortedByCount titleStats).Pairwise countLe ∧
    (sortedByDuration titleStats).Perm titleStats ∧
    (sortedByDuration titleStats).Pairwise durLe ∧
    (sortedByDays allDayStats).Perm allDayStats ∧
    (sortedByDays allDayStats).Pairwise durLe :=
  ⟨List.perm_insertionSort _ _, List.sorted_insertionSort _ _,
   List.perm_insertionSort _ _, List.sorted_insertionSort _ _,
   List.perm_insertionSort _ _, List.sorted_insertionSort _ _⟩

/- ---------------------------------------------------------------------
   Parser claims: well-formed block files, frame effects, field updates.
   --------------------------------------------------------------------- -/

/-- A line that is neither block delimiter once trimmed. -/
def goodLine (l : Str) : Prop :=
  trimSpace l ≠ str "BEGIN:VEVENT" ∧ trimSpace l ≠ str "END:VEVENT"

instance : DecidablePred goodLine := fun l => by unfold goodLine; infer_instance

/-- One well-formed event block in file syntax. -/
def renderBlock (body : List Str) : List Str :=
  str "BEGIN:VEVENT" :: body ++ [str "END:VEVENT"]

/-- A file made of consecutive well-formed blocks. -/
def renderFile (blocks : List (List Str)) : List Str := (blocks.map renderBlock).flatten

/-- The Event a block's body assembles. -/
def eventOfBlock (body : List Str) : Event :=
  body.foldl (fun e l => applyProp e (trimSpace l)) emptyEvent

theorem foldl_processLine_inEvent :
    ∀ body : List Str, (∀ l ∈ body, goodLine l) → ∀ st : ParseState, st.inEvent = true →
      (body.foldl processLine st).events = st.events ∧
      (body.foldl processLine st).currentEvent =
        body.foldl (fun e l => applyProp e (trimSpace l)) st.currentEvent ∧
      (body.foldl processLine st).inEvent = true := by
  intro body
  induction body with
  | nil => intro _ st hin; exact ⟨rfl, rfl, hin⟩
  | cons l rest ih =>
    intro hgood st hin
    have hl : goodLine l := hgood l (List.mem_cons_self _ _)
    have hstep : processLine st l =
        ⟨st.events, applyProp st.currentEvent (trimSpace l), true⟩ := by
      simp only [processLine]
      rw [if_neg hl.1, if_neg hl.2, if_pos hin, hin]
    rw [List.foldl_cons, List.foldl_cons, hstep]
    exact ih (fun x hx => hgood x (List.mem_cons_of_mem _ hx)) _ rfl

theorem parse_renderFile : ∀ blocks : List (List Str),
    (∀ b ∈ blocks, ∀ l ∈ b, goodLine l) → ∀ (evs : List Event) (cur : Event),
    ∃ cur' : Event,
      (renderFile blocks).foldl processLine ⟨evs, cur, false⟩ =
        ⟨evs ++ blocks.map eventOfBlock, cur', false⟩ := by
  intro blocks
  induction blocks with
  | nil => intro _ evs cur; exact ⟨cur, by simp [renderFile]⟩
  | cons b bs ih =>
    intro hgood evs cur
    have hbody : ∀ l ∈ b, goodLine l := hgood b (List.mem_cons_self _ _)
    have hbs : ∀ b' ∈ bs, ∀ l ∈ b', goodLine l :=
      fun b' hb' => hgood b' (List.mem_cons_of_mem _ hb')
    have hrf : renderFile (b :: bs) =
        str "BEGIN:VEVENT" :: (b ++ ([str "END:VEVENT"] ++ renderFile bs)) := by
      simp [renderFile, renderBlock]
    have hbegin : processLine ⟨evs, cur, false⟩ (str "BEGIN:VEVENT") =
        ⟨evs, emptyEvent, true⟩ := by
      have htrim : trimSpace (str "BEGIN:VEVENT") = str "BEGIN:VEVENT" := by decide
      simp [processLine, htrim]
    obtain ⟨hev, hcur, hin⟩ :=
      foldl_processLine_inEvent b hbody ⟨evs, emptyEvent, true⟩ rfl
    have hend :
        List.foldl processLine (b.foldl processLine ⟨evs, emptyEvent, true⟩)
          [str "END:VEVENT"] = ⟨evs ++ [eventOfBlock b], eventOfBlock b, false⟩ := by
      rw [List.foldl_cons, List.foldl_nil]
      simp only [processLine]
      have htrim : trimSpace (str "END:VEVENT") = str "END:VEVENT" := by decide
      rw [htrim]
      rw [if_neg (by decide : ¬ (str "END:VEVENT" = str "BEGIN:VEVENT")), if_pos rfl]
      rw [hin, hev, hcur]
      simp [eventOfBlock, emptyEvent]
    obtain ⟨cur'', hrest⟩ := ih hbs (evs ++ [eventOfBlock b]) (eventOfBlock b)
    refine ⟨cur'', ?_⟩
    rw [hrf, List.foldl_cons, hbegin, List.foldl_append, List.foldl_append, hend, hrest]
    simp

/-- C5, confirmed: rendering any list of well-formed blocks and parsing
    yields exactly one Event per block, in file order; appending a
    trailing BEGIN:VEVENT with body lines but no END:VEVENT emits nothing
    for the trailing block. -/
theorem parseICS_one_event_per_block (blocks : List (List Str)) (trailing : List Str)
    (hb : ∀ b ∈ blocks, ∀ l ∈ b, goodLine l) (ht : ∀ l ∈ trailing, goodLine l) :
    parseICSLines (renderFile blocks) = blocks.map eventOfBlock ∧
    parseICSLines (renderFile blocks ++ str "BEGIN:VEVENT" :: trailing) =
      blocks.map eventOfBlock := by
  obtain ⟨cur', hmain⟩ := parse_renderFile blocks hb [] emptyEvent
  constructor
  · unfold parseICSLines
    rw [hmain]
    simp
  · unfold parseICSLines
    rw [List.foldl_append, hmain, List.foldl_cons]
    have hbegin :
        processLine ⟨[] ++ blocks.map eventOfBlock, cur', false⟩ (str "BEGIN:VEVENT") =
          ⟨[] ++ blocks.map eventOfBlock, emptyEvent, true⟩ := by
      have htrim : trimSpace (str "BEGIN:VEVENT") = str "BEGIN:VEVENT" := by decide
      simp [processLine, htrim]
    rw [hbegin]
    rw [(foldl_processLine_inEvent trailing ht _ rfl).1]
    simp

/-- C5 witness: a one-block file plus an unterminated trailing block
    parses to exactly the one event of the closed block. -/
theorem parseICS_one_event_per_block_witness :
    ((∀ b ∈ [[str "SUMMARY:a"]], ∀ l ∈ b, goodLine l) ∧
     (∀ l ∈ [str "SUMMARY:b"], goodLine l)) ∧
    (parseICSLines (renderFile [[str "SUMMARY:a"]]) =
        [[str "SUMMARY:a"]].map eventOfBlock ∧
     parseICSLines (renderFile [[str "SUMMARY:a"]] ++
        str "BEGIN:VEVENT" :: [str "SUMMARY:b"]) =
        [[str "SUMMARY:a"]].map eventOfBlock) :=
  ⟨⟨by decide, by decide⟩,
    parseICS_one_event_per_block [[str "SUMMARY:a"]] [str "SUMMARY:b"]
      (by decide) (by decide)⟩

/-- C9, counterexample: a BEGIN:VEVENT line seen while already inside an
    event is not END:VEVENT and carries none of the recognized property
    prefixes, yet it does not leave the in-progress Event unchanged — it
    resets the accumulator to the empty Event. -/
theorem processLine_begin_resets_cex :
    (⟨[], ⟨str "x", [], 0, 0, 0, false⟩, true⟩ : ParseState).inEvent = true ∧
    trimSpace (str "BEGIN:VEVENT") ≠ str "END:VEVENT" ∧
    startsWithStr (trimSpace (str "BEGIN:VEVENT")) (str "UID:") = false ∧
    startsWithStr (trimSpace (str "BEGIN:VEVENT")) (str "SUMMARY:") = false ∧
    startsWithStr (trimSpace (str "BEGIN:VEVENT")) (str "DTSTART") = false ∧
    startsWithStr (trimSpace (str "BEGIN:VEVENT")) (str "DTEND") = false ∧
    startsWithStr (trimSpace (str "BEGIN:VEVENT")) (str "CREATED:") = false ∧
    processLine ⟨[], ⟨str "x", [], 0, 0, 0, false⟩, true⟩ (str "BEGIN:VEVENT") ≠
      ⟨[], ⟨str "x", [], 0, 0, 0, false⟩, true⟩ := by
  decide

/-- C9, amended: while inside an event, any line other than BEGIN:VEVENT
    and END:VEVENT whose trimmed text carries none of the recognized
    property prefixes leaves the parser state — in particular every field
    of the in-progress Event — unchanged. -/
theorem processLine_ignores_unknown (st : ParseState) (line : Str)
    (hin : st.inEvent = true)
    (hbg : trimSpace line ≠ str "BEGIN:VEVENT")
    (hed : trimSpace line ≠ str "END:VEVENT")
    (h1 : startsWithStr (trimSpace line) (str "UID:") = false)
    (h2 : startsWithStr (trimSpace line) (str "SUMMARY:") = false)
    (h3 : startsWithStr (trimSpace line) (str "DTSTART") = false)
    (h4 : startsWithStr (trimSpace line) (str "DTEND") = false)
    (h5 : startsWithStr (trimSpace line) (str "CREATED:") = false) :
    processLine st line = st := by
  simp only [processLine]
  rw [if_neg hbg, if_neg hed, if_pos hin]
  have happ : applyProp st.currentEvent (trimSpace line) = st.currentEvent := by
    unfold applyProp
    simp only [h1, h2, h3, h4, h5, Bool.false_eq_true, if_false]
  rw [happ]

/-- C9 witness: an unrecognized X- property line inside an event leaves
    the state untouched. -/
theorem processLine_ignores_unknown_witness :
    ((⟨[], ⟨str "u", str "s", 1, 2, 3, true⟩, true⟩ : ParseState).inEvent = true ∧
     trimSpace (str "X-FOO:1") ≠ str "BEGIN:VEVENT" ∧
     trimSpace (str "X-FOO:1") ≠ str "END:VEVENT" ∧
     startsWithStr (trimSpace (str "X-FOO:1")) (str "UID:") = false ∧
     startsWithStr (trimSpace (str "X-FOO:1")) (str "SUMMARY:") = false ∧
     startsWithStr (trimSpace (str "X-FOO:1")) (str "DTSTART") = false ∧
     startsWithStr (trimSpace (str "X-FOO:1")) (str "DTEND") = false ∧
     startsWithStr (trimSpace (str "X-FOO:1")) (str "CREATED:") = false) ∧
    processLine ⟨[], ⟨str "u", str "s", 1, 2, 3, true⟩, true⟩ (str "X-FOO:1") =
      ⟨[], ⟨str "u", str "s", 1, 2, 3, true⟩, true⟩ :=
  ⟨⟨rfl, by decide, by decide, by decide, by decide, by decide, by decide, by decide⟩,
    processLine_ignores_unknown _ _ rfl (by decide) (by decide) (by decide) (by decide)
      (by decide) (by decide) (by decide)⟩

theorem applyProp_fields (e : Event) (l : Str) :
    ((applyProp e l).Start = e.Start ∨
      parseDateTime (extractDateTime l) = some (applyProp e l).Start) ∧
    ((applyProp e l).End = e.End ∨
      parseDateTime (extractDateTime l) = some (applyProp e l).End) ∧
    ((applyProp e l).Created = e.Created ∨
      parseDateTime (trimPrefStr l (str "CREATED:")) = some (applyProp e l).Created) ∧
    (e.IsAllDay = true → (applyProp e l).IsAllDay = true) := by
  unfold applyProp
  by_cases h1 : startsWithStr l (str "UID:") = true
  · simp [h1]
  · by_cases h2 : startsWithStr l (str "SUMMARY:") = true
    · simp [h1, h2]
    · by_cases h3 : startsWithStr l (str "DTSTART") = true
      · by_cases hv : containsStr l (str "VALUE=DATE") = true <;>
          cases hp : parseDateTime (extractDateTime l) <;>
            simp [h1, h2, h3, hv, hp]
      · by_cases h4 : startsWithStr l (str "DTEND") = true
        · cases hp : parseDateTime (extractDateTime l) <;> simp [h1, h2, h3, h4, hp]
        · by_cases h5 : startsWithStr l (str "CREATED:") = true
          · cases hp : parseDateTime (trimPrefStr l (str "CREATED:")) <;>
              simp [h1, h2, h3, h4, h5, hp]
          · simp [h1, h2, h3, h4, h5]

/-- C10, confirmed: on any in-block line other than the two delimiters,
    each datetime field of the in-progress Event is either untouched or
    overwritten by a successfully decoded value (a failed decode leaves
    the previous value intact), and the all-day flag, once set, is never
    cleared. -/
theorem processLine_field_monotone (st : ParseState) (line : Str)
    (hin : st.inEvent = true)
    (hbg : trimSpace line ≠ str "BEGIN:VEVENT")
    (hed : trimSpace line ≠ str "END:VEVENT") :
    ((processLine st line).currentEvent.Start = st.currentEvent.Start ∨
      parseDateTime (extractDateTime (trimSpace line)) =
        some (processLine st line).currentEvent.Start) ∧
    ((processLine st line).currentEvent.End = st.currentEvent.End ∨
      parseDateTime (extractDateTime (trimSpace line)) =
        some (processLine st line).currentEvent.End) ∧
    ((processLine st line).currentEvent.Created = st.currentEvent.Created ∨
      parseDateTime (trimPrefStr (trimSpace line) (str "CREATED:")) =
        some (processLine st line).currentEvent.Created) ∧
    (st.currentEvent.IsAllDay = true →
      (processLine st line).currentEvent.IsAllDay = true) := by
  have hpl : processLine st line =
      { st with currentEvent := applyProp st.currentEvent (trimSpace line) } := by
    simp only [processLine]
    rw [if_neg hbg, if_neg hed, if_pos hin]
  rw [hpl]
  exact applyProp_fields st.currentEvent (trimSpace line)

/-- C10 witness: a repeated DTSTART line with an undecodable token leaves
    the previously assigned start (and the set all-day flag) intact. -/
theorem processLine_field_monotone_witness :
    ((⟨[], ⟨[], [], 5, 6, 7, true⟩, true⟩ : ParseState).inEvent = true ∧
     trimSpace (str "DTSTART:banana") ≠ str "BEGIN:VEVENT" ∧
     trimSpace (str "DTSTART:banana") ≠ str "END:VEVENT") ∧
    (((processLine ⟨[], ⟨[], [], 5, 6, 7, true⟩, true⟩
          (str "DTSTART:banana")).currentEvent.Start =
        (⟨[], ⟨[], [], 5, 6, 7, true⟩, true⟩ : ParseState).currentEvent.Start ∨
      parseDateTime (extractDateTime (trimSpace (str "DTSTART:banana"))) =
        some (processLine ⟨[], ⟨[], [], 5, 6, 7, true⟩, true⟩
          (str "DTSTART:banana")).currentEvent.Start) ∧
     ((processLine ⟨[], ⟨[], [], 5, 6, 7, true⟩, true⟩
          (str "DTSTART:banana")).currentEvent.End =
        (⟨[], ⟨[], [], 5, 6, 7, true⟩, true⟩ : ParseState).currentEvent.End ∨
      parseDateTime (extractDateTime (trimSpace (str "DTSTART:banana"))) =
        some (processLine ⟨[], ⟨[], [], 5, 6, 7, true⟩, true⟩
          (str "DTSTART:banana")).currentEvent.End) ∧
     ((processLine ⟨[], ⟨[], [], 5, 6, 7, true⟩, true⟩
          (str "DTSTART:banana")).currentEvent.Created =
        (⟨[], ⟨[], [], 5, 6, 7, true⟩, true⟩ : ParseState).currentEvent.Created ∨
      parseDateTime (trimPrefStr (trimSpace (str "DTSTART:banana")) (str "CREATED:")) =
        some (processLine ⟨[], ⟨[], [], 5, 6, 7, true⟩, true⟩
          (str "DTSTART:banana")).currentEvent.Created) ∧
     ((⟨[], ⟨[], [], 5, 6, 7, true⟩, true⟩ : ParseState).currentEvent.IsAllDay = true →
      (processLine ⟨[], ⟨[], [], 5, 6, 7, true⟩, true⟩
          (str "DTSTART:banana")).currentEvent.IsAllDay = true)) :=
  ⟨⟨rfl, by decide, by decide⟩,
    processLine_field_monotone ⟨[], ⟨[], [], 5, 6, 7, true⟩, true⟩
      (str "DTSTART:banana") rfl (by decide) (by decide)⟩

/- ---------------------------------------------------------------------
   Categorization claim (C4) and per-title statistics claim (C6).
   --------------------------------------------------------------------- -/

/-- The first-match-in-sorted-order contract: the result is the
    lexicographically least event-rule name whose keywords hit the
    lowercased title; failing that, the least general-category name that
    hits; failing that, the literal other. -/
def firstSortedMatch (config : CategorizationConfig) (title : Str) (result : Str) : Prop :=
  (result ∈ config.EventCategories.map Prod.fst ∧
     keywordHit (toLowerStr title)
       (lookupD config.EventCategories result ⟨[], []⟩).Keywords = true ∧
     ∀ m ∈ config.EventCategories.map Prod.fst,
       keywordHit (toLowerStr title)
         (lookupD config.EventCategories m ⟨[], []⟩).Keywords = true → strLe result m) ∨
  ((∀ m ∈ config.EventCategories.map Prod.fst,
      keywordHit (toLowerStr title)
        (lookupD config.EventCategories m ⟨[], []⟩).Keywords = false) ∧
   result ∈ config.Categories.map Prod.fst ∧
   keywordHit (toLowerStr title)
     (lookupD config.Categories result ⟨[], []⟩).Keywords = true ∧
   ∀ m ∈ config.Categories.map Prod.fst,
     keywordHit (toLowerStr title)
       (lookupD config.Categories m ⟨[], []⟩).Keywords = true → strLe result m) ∨
  ((∀ m ∈ config.EventCategories.map Prod.fst,
      keywordHit (toLowerStr title)
        (lookupD config.EventCategories m ⟨[], []⟩).Keywords = false) ∧
   (∀ m ∈ config.Categories.map Prod.fst,
      keywordHit (toLowerStr title)
        (lookupD config.Categories m ⟨[], []⟩).Keywords = false) ∧
   result = str "other")

instance (config : CategorizationConfig) (title result : Str) :
    Decidable (firstSortedMatch config title result) := by
  unfold firstSortedMatch; infer_instance

/-- C4, confirmed: CategorizeByKeywords lowercases the title, scans
    event-rule names in sorted order and returns the first (hence
    lexicographically least) whose lowercased keywords substring-match,
    then general categories likewise, else the literal other; under unique
    rule names the result is invariant under permutation of either map. -/
theorem categorizeByKeywords_deterministic (config config' : CategorizationConfig)
    (title : Str)
    (hpermE : config.EventCategories.Perm config'.EventCategories)
    (hpermC : config.Categories.Perm config'.Categories)
    (hndE : (config.EventCategories.map Prod.fst).Nodup)
    (hndC : (config.Categories.map Prod.fst).Nodup) :
    CategorizeByKeywords config title = CategorizeByKeywords config' title ∧
    firstSortedMatch config title (CategorizeByKeywords config title) := by
  constructor
  · have hkeysE : sortStrings (config.EventCategories.map Prod.fst) =
        sortStrings (config'.EventCategories.map Prod.fst) :=
      List.eq_of_perm_of_sorted
        ((List.perm_insertionSort strLe _).trans
          ((hpermE.map Prod.fst).trans (List.perm_insertionSort strLe _).symm))
        (List.sorted_insertionSort strLe _) (List.sorted_insertionSort strLe _)
    have hkeysC : sortStrings (config.Categories.map Prod.fst) =
        sortStrings (config'.Categories.map Prod.fst) :=
      List.eq_of_perm_of_sorted
        ((List.perm_insertionSort strLe _).trans
          ((hpermC.map Prod.fst).trans (List.perm_insertionSort strLe _).symm))
        (List.sorted_insertionSort strLe _) (List.sorted_insertionSort strLe _)
    have hlookE : (fun eventType => keywordHit (toLowerStr title)
          (lookupD config.EventCategories eventType ⟨[], []⟩).Keywords) =
        (fun eventType => keywordHit (toLowerStr title)
          (lookupD config'.EventCategories eventType ⟨[], []⟩).Keywords) := by
      funext n
      rw [lookupD_perm hpermE hndE]
    have hlookC : (fun categoryName => keywordHit (toLowerStr title)
          (lookupD config.Categories categoryName ⟨[], []⟩).Keywords) =
        (fun categoryName => keywordHit (toLowerStr title)
          (lookupD config'.Categories categoryName ⟨[], []⟩).Keywords) := by
      funext n
      rw [lookupD_perm hpermC hndC]
    simp only [CategorizeByKeywords]
    rw [hkeysE, hkeysC, hlookE, hlookC]
  · simp only [CategorizeByKeywords]
    cases hE : (sortStrings (config.EventCategories.map Prod.fst)).find?
        (fun eventType => keywordHit (toLowerStr title)
          (lookupD config.EventCategories eventType ⟨[], []⟩).Keywords) with
    | some n =>
      obtain ⟨hmem, hpn, hmin⟩ :=
        find?_sorted_min (List.sorted_insertionSort strLe _) hE
      left
      refine ⟨(List.perm_insertionSort strLe _).subset hmem, hpn, ?_⟩
      intro m hm hhit
      exact hmin m ((List.perm_insertionSort strLe _).symm.subset hm) hhit
    | none =>
      have hallE : ∀ m ∈ config.EventCategories.map Prod.fst,
          keywordHit (toLowerStr title)
            (lookupD config.EventCategories m ⟨[], []⟩).Keywords = false := by
        intro m hm
        have := List.find?_eq_none.mp hE m
          ((List.perm_insertionSort strLe _).symm.subset hm)
        simpa using this
      cases hC : (sortStrings (config.Categories.map Prod.fst)).find?
          (fun categoryName => keywordHit (toLowerStr title)
            (lookupD config.Categories categoryName ⟨[], []⟩).Keywords) with
      | some n =>
        obtain ⟨hmem, hpn, hmin⟩ :=
          find?_sorted_min (List.sorted_insertionSort strLe _) hC
        right; left
        refine ⟨hallE, (List.perm_insertionSort strLe _).subset hmem, hpn, ?_⟩
        intro m hm hhit
        exact hmin m ((List.perm_insertionSort strLe _).symm.subset hm) hhit
      | none =>
        have hallC : ∀ m ∈ config.Categories.map Prod.fst,
            keywordHit (toLowerStr title)
              (lookupD config.Categories m ⟨[], []⟩).Keywords = false := by
          intro m hm
          have := List.find?_eq_none.mp hC m
            ((List.perm_insertionSort strLe _).symm.subset hm)
          simpa using this
        exact Or.inr (Or.inr ⟨hallE, hallC, rfl⟩)

/-- The end-to-end rule set of the specification's scenario: one event
    rule map with two rules that both hit the sample title, and one
    general category that also hits. -/
def cfgW : CategorizationConfig :=
  ⟨[(str "focus", ⟨str "Focus", [str "focus work"]⟩)],
   [(str "standup", ⟨[str "standup"], str "meeting"⟩),
    (str "alpha", ⟨[str "morning"], str "x"⟩)],
   []⟩

/-- C4 witness: on a title hit by both event rules, the result is the
    rule whose name sorts first, and permuting the (singleton-permuted)
    maps changes nothing. -/
theorem categorizeByKeywords_deterministic_witness :
    ((cfgW.EventCategories.map Prod.fst).Nodup ∧
     (cfgW.Categories.map Prod.fst).Nodup) ∧
    (CategorizeByKeywords cfgW (str "Morning Standup Focus Work") =
       CategorizeByKeywords cfgW (str "Morning Standup Focus Work") ∧
     firstSortedMatch cfgW (str "Morning Standup Focus Work")
       (CategorizeByKeywords cfgW (str "Morning Standup Focus Work"))) :=
  ⟨⟨by decide, by decide⟩,
   categorizeByKeywords_deterministic cfgW cfgW (str "Morning Standup Focus Work")
     (List.Perm.refl _) (List.Perm.refl _) (by decide) (by decide)⟩

/-- The duration one event contributes to its title group's timed total. -/
def timedContribution (e : Event) : Int :=
  if !(isAllDayEvent e) && !(e.Start == 0) && !(e.End == 0) then
    if 0 < e.End - e.Start then e.End - e.Start else 0
  else 0

theorem titleTimedDuration_eq_sum (l : List Event) :
    titleTimedDuration l = (l.map timedContribution).sum := by
  have aux : ∀ (l : List Event) (acc : Int),
      List.foldl
        (fun duration e =>
          if !(isAllDayEvent e) && !(e.Start == 0) && !(e.End == 0) then
            let d := e.End - e.Start
            if 0 < d then duration + d else duration
          else duration)
        acc l = acc + (l.map timedContribution).sum := by
    intro l
    induction l with
    | nil => intro acc; simp
    | cons e rest ih =>
      intro acc
      rw [List.foldl_cons, ih, List.map_cons, List.sum_cons]
      have hstep :
          (if !(isAllDayEvent e) && !(e.Start == 0) && !(e.End == 0) then
            let d := e.End - e.Start
            if 0 < d then acc + d else acc
          else acc) = acc + timedContribution e := by
        unfold timedContribution
        by_cases hc : (!(isAllDayEvent e) && !(e.Start == 0) && !(e.End == 0)) = true
        · simp only [hc, if_true]
          by_cases hd : 0 < e.End - e.Start <;> simp [hd]
        · have hc' := eq_false_of_ne_true hc
          simp [hc']
      rw [hstep]
      omega
  rw [titleTimedDuration, aux]
  omega

theorem timedContribution_eq_zero {e : Event}
    (h : isAllDayEvent e = true ∨ e.Start = 0 ∨ e.End = 0 ∨ e.End - e.Start ≤ 0) :
    timedContribution e = 0 := by
  unfold timedContribution
  rcases h with h | h | h | h
  · simp [h]
  · simp [h]
  · simp [h]
  · have hd : ¬ (0 < e.End - e.Start) := not_lt.mpr h
    by_cases hc : (!(isAllDayEvent e) && !(e.Start == 0) && !(e.End == 0)) = true
    · simp [hc, hd]
    · simp [eq_false_of_ne_true hc]

theorem timedContribution_nonneg (e : Event) : 0 ≤ timedContribution e := by
  unfold timedContribution
  by_cases hc : (!(isAllDayEvent e) && !(e.Start == 0) && !(e.End == 0)) = true
  · simp only [hc, if_true]
    by_cases hd : 0 < e.End - e.Start
    · simp only [hd, if_true]
      omega
    · simp [hd]
  · simp [eq_false_of_ne_true hc]

/-- C6, confirmed: each title group contributes a row with its count and
    the sum of positive spans of its timed, fully dated members (never
    negative, and zero when every member is all-day, undated or
    non-positive), and a title appears in the all-day table exactly when
    its group has at least one all-day member. -/
theorem titleStats_accumulation (grouped : List (Str × List Event)) (title : Str)
    (events : List Event) (hmem : (title, events) ∈ grouped)
    (hnd : (grouped.map Prod.fst).Nodup) :
    (⟨title, events.length, titleTimedDuration events⟩ : TitleStats) ∈
        calculateTitleStats grouped ∧
    0 ≤ titleTimedDuration events ∧
    ((∀ e ∈ events, isAllDayEvent e = true ∨ e.Start = 0 ∨ e.End = 0 ∨
        e.End - e.Start ≤ 0) → titleTimedDuration events = 0) ∧
    ((∃ s ∈ calculateAllDayStats grouped, s.Title = title) ↔
      ∃ e ∈ events, isAllDayEvent e = true) := by
  have hkey : title ∈ grouped.map Prod.fst :=
    List.mem_map.mpr ⟨(title, events), hmem, rfl⟩
  have hsortmem : title ∈ sortStrings (grouped.map Prod.fst) :=
    (List.perm_insertionSort strLe _).symm.subset hkey
  have hlook : lookupD grouped title [] = events := lookupD_of_mem hnd hmem []
  refine ⟨?_, ?_, ?_, ?_⟩
  · simp only [calculateTitleStats]
    exact List.mem_map.mpr ⟨title, hsortmem, by rw [hlook]⟩
  · rw [titleTimedDuration_eq_sum]
    apply List.sum_nonneg
    intro x hx
    obtain ⟨e, _, hex⟩ := List.mem_map.mp hx
    exact hex ▸ timedContribution_nonneg e
  · intro hall
    rw [titleTimedDuration_eq_sum]
    apply List.sum_eq_zero
    intro x hx
    obtain ⟨e, he, hex⟩ := List.mem_map.mp hx
    exact hex ▸ timedContribution_eq_zero (hall e he)
  · constructor
    · rintro ⟨s, hs, hstitle⟩
      simp only [calculateAllDayStats] at hs
      obtain ⟨a, hamem, hga⟩ := List.mem_filterMap.mp hs
      by_cases hc : 0 < allDayCount (lookupD grouped a [])
      · rw [if_pos hc] at hga
        have hsa : s.Title = a := by
          cases hga
          rfl
        have haTitle : a = title := by rw [← hsa, hstitle]
        rw [haTitle, hlook] at hc
        obtain ⟨e, he, hp⟩ := List.countP_pos_iff.mp hc
        exact ⟨e, he, by simpa using hp⟩
      · rw [if_neg hc] at hga
        cases hga
    · rintro ⟨e, he, hall⟩
      have hc : 0 < allDayCount events :=
        List.countP_pos_iff.mpr ⟨e, he, by simpa using hall⟩
      refine ⟨⟨title, allDayCount events, allDayTotalDays events * 86400⟩, ?_, rfl⟩
      simp only [calculateAllDayStats]
      apply List.mem_filterMap.mpr
      refine ⟨title, hsortmem, ?_⟩
      rw [hlook, if_pos hc]

/-- C6 witness: a group with a single zero-duration timed event has zero
    timed duration and no all-day row; the sibling all-day group appears
    in the all-day table. -/
theorem titleStats_accumulation_witness :
    ((str "a", [(⟨[], str "a", 100, 100, 0, false⟩ : Event)]) ∈
        [(str "a", [(⟨[], str "a", 100, 100, 0, false⟩ : Event)]),
         (str "b", [(⟨[], str "b", 0, 0, 0, true⟩ : Event)])] ∧
     (([(str "a", [(⟨[], str "a", 100, 100, 0, false⟩ : Event)]),
        (str "b", [(⟨[], str "b", 0, 0, 0, true⟩ : Event)])].map Prod.fst).Nodup)) ∧
    ((⟨str "a", 1, titleTimedDuration [(⟨[], str "a", 100, 100, 0, false⟩ : Event)]⟩ :
        TitleStats) ∈
      calculateTitleStats
        [(str "a", [(⟨[], str "a", 100, 100, 0, false⟩ : Event)]),
         (str "b", [(⟨[], str "b", 0, 0, 0, true⟩ : Event)])] ∧
     0 ≤ titleTimedDuration [(⟨[], str "a", 100, 100, 0, false⟩ : Event)] ∧
     ((∀ e ∈ [(⟨[], str "a", 100, 100, 0, false⟩ : Event)],
        isAllDayEvent e = true ∨ e.Start = 0 ∨ e.End = 0 ∨ e.End - e.Start ≤ 0) →
       titleTimedDuration [(⟨[], str "a", 100, 100, 0, false⟩ : Event)] = 0) ∧
     ((∃ s ∈ calculateAllDayStats
          [(str "a", [(⟨[], str "a", 100, 100, 0, false⟩ : Event)]),
           (str "b", [(⟨[], str "b", 0, 0, 0, true⟩ : Event)])], s.Title = str "a") ↔
       ∃ e ∈ [(⟨[], str "a", 100, 100, 0, false⟩ : Event)], isAllDayEvent e = true)) :=
  ⟨⟨by decide, by decide⟩,
    titleStats_accumulation
      [(str "a", [(⟨[], str "a", 100, 100, 0, false⟩ : Event)]),
       (str "b", [(⟨[], str "b", 0, 0, 0, true⟩ : Event)])]
      (str "a") [(⟨[], str "a", 100, 100, 0, false⟩ : Event)]
      (by decide) (by decide)⟩

example : sortStrings [str "b", str "a"] = [str "a", str "b"] := by decide
example : containsStr (str "morning standup") (str "standup") = true := by decide
example : containsStr (str "abc") (str "") = true := by decide
example : trimSpace (str "  x y\t") = str "x y" := by decide
example : toLowerStr (str "AbZ:") = str "abz:" := by decide
example : trimPrefStr (str "UID:42") (str "UID:") = str "42" := by decide
example : startsWithStr (str "DTSTART;V:x") (str "DTSTART") = true := by decide
